import Mathlib

/-!
Verification of the result-set materialization and type-casting subsystem of the
BigQuery-Pandas-Lite repository (`bqlite/bqlite.py`, `bqlite/bqlite_table.py`).

The development is a shallow embedding of the Python code:

* `to_df` embeds the static method `BQLite.__to_df(rows, schema)` together with its
  nested helpers `to_flg`, `cast_all_column` and `cast_column`.
* `to_bq_schema` embeds `BQLite.__to_bq_schema(schema_df)`.
* `insert_data` embeds the payload-building loop of `BQLiteTable.insert_data`.

External-collaborator code (the `pandas`/`numpy`/`google-cloud` libraries and the
Python builtins `str`, `float`, `len`, `max`, indexing) is modelled at the behaviour
the repository observes; each such model carries a doc comment saying exactly what
is abstracted.
-/

set_option autoImplicit false

/-- A raw wire value inside one column of the raw row page handed to `__to_df`.
The page is column-major: one outer entry per schema column, one inner entry per
row.  A cell is Python `None`, a string scalar, or (for REPEATED columns) a nested
sequence whose elements are `None` or strings. -/
inductive RawCell where
  | null
  | scalar (s : String)
  | arr (xs : List (Option String))
deriving DecidableEq, Repr

/-- A value produced by one of the casting functions in `cast_mapping`:
`str`, `float`, `to_flg` or `pd.Timestamp`. -/
inductive CastValue where
  | str (s : String)
  | float (q : Rat)
  | bool (b : Bool)
  | timestamp (s : String)
deriving DecidableEq, Repr

/-- A numpy/pandas storage dtype, identified up to its `dtype.kind` character,
which is all `__to_bq_schema` inspects. -/
inductive Dtype where
  | int64
  | uint64
  | float64
  | bool_
  | object_
  | bytes_
  | unicode_
  | datetime64
  | timedelta64
  | complex128
deriving DecidableEq, Repr

/-- `numpy.dtype.kind`: the one-character type-family code read by
`__to_bq_schema`. -/
def Dtype.kind : Dtype → String
  | .int64 => "i"
  | .uint64 => "u"
  | .float64 => "f"
  | .bool_ => "b"
  | .object_ => "O"
  | .bytes_ => "S"
  | .unicode_ => "U"
  | .datetime64 => "M"
  | .timedelta64 => "m"
  | .complex128 => "c"

/-- The Python exceptions that can escape `__to_df`:
the repository runs `raise Exception` of the unsupported-type message itself, and the
Python runtime raises `TypeError` (`len()` of a non-sequence, `float()` of a
non-string/number), `ValueError` (`float()` of a non-numeric string, `max()` of an
empty sequence) and `IndexError` (`rows[0]` on an exhausted list). -/
inductive PyError where
  | unsupportedType (t : String)
  | typeError (msg : String)
  | valueError (msg : String)
  | indexError
deriving DecidableEq, Repr

/-- The message text of a raised error; for the unsupported-type case it is the
exact string built at `raise Exception` concatenating the prefix, `values_type`, and a final period. -/
def pyErrorMessage : PyError → String
  | .unsupportedType t => "Not Support to type:" ++ t ++ "."
  | .typeError msg => msg
  | .valueError msg => msg
  | .indexError => "list index out of range"

/-- One entry of a BigQuery column schema, as read from `col_dict.name`,
`col_dict.field_type` and `col_dict.mode` (and as built by `SchemaField(...)`). -/
structure SchemaField where
  name : String
  field_type : String
  mode : String
deriving DecidableEq, Repr

/-- The typed table returned by `__to_df`: the ordered `(name, Series)` pairs fed to
`pd.DataFrame.from_items`, with each pandas `Series` modelled as its dtype plus its
list of values (`none` being the missing-value marker).  The external `pd.Series`
container is modelled per the repository boundary as a typed column that preserves
missing values. -/
abbrev Table : Type := List (String × Dtype × List (Option CastValue))

/-- Python `str(x)` on a raw cell.  On a string it is the identity (the only case
the claims observe); on a nested sequence it renders the list textually (element
quoting of the Python `repr` is abstracted away); `None` is rendered `"None"`. -/
def pyStr : RawCell → String
  | .null => "None"
  | .scalar s => s
  | .arr xs => "[" ++ String.intercalate ", " (xs.map (fun e => e.getD "None")) ++ "]"

/-- Python `len(x)`: strings and lists have a length, `None` raises `TypeError`. -/
def pyLen : RawCell → Except PyError Nat
  | .null => .error (.typeError "object of type NoneType has no len()")
  | .scalar s => .ok s.length
  | .arr xs => .ok xs.length

/-- Python `value[row_no]` on a cell, guarded by `row_no < len(value)` at every use
site.  Indexing a string yields the one-character substring (never `None`);
indexing a nested list yields the element, which may be `None`. -/
def pyIndex : RawCell → Nat → Option String
  | .null, _ => none
  | .scalar s, r => some (String.mk [s.data.getD r ' '])
  | .arr xs, r => xs.getD r none

/-- Python `max(l)` for a list of naturals: raises `ValueError` on an empty list. -/
def pyMax : List Nat → Except PyError Nat
  | [] => .error (.valueError "max() arg is an empty sequence")
  | l => .ok (l.foldl Nat.max 0)

/-- The list comprehension `[len(row_value) for row_value in row_values]`:
evaluated left to right, raising at the first cell without a `len`. -/
def pyLenList : List RawCell → Except PyError (List Nat)
  | [] => .ok []
  | c :: cs =>
    match pyLen c with
    | .error e => .error e
    | .ok n =>
      match pyLenList cs with
      | .error e => .error e
      | .ok ns => .ok (n :: ns)

/-- Numeric value of a digit run. -/
def digitsVal (ds : List Char) : Nat :=
  ds.foldl (fun a c => a * 10 + (c.toNat - 48)) 0

/-- The mantissa part of a Python float literal: `digits`, `digits.digits`,
`digits.` or `.digits`. -/
def parseMantissa (cs : List Char) : Option Rat :=
  let ip := cs.takeWhile Char.isDigit
  let rest := cs.dropWhile Char.isDigit
  match rest with
  | [] => if ip.isEmpty then none else some ((digitsVal ip : Nat) : Rat)
  | '.' :: frac =>
    if ip.isEmpty && frac.isEmpty then none
    else if frac.all Char.isDigit then
      some ((digitsVal ip : Nat) + ((digitsVal frac : Nat) : Rat) / ((10 : Rat) ^ frac.length))
    else none
  | _ => none

/-- Split a char list at the first `e`/`E`, if any. -/
def splitExp : List Char → List Char × Option (List Char)
  | [] => ([], none)
  | c :: rest =>
    if c = 'e' ∨ c = 'E' then ([], some rest)
    else
      let (m, e) := splitExp rest
      (c :: m, e)

/-- The exponent part of a Python float literal: an optionally signed digit run. -/
def parseExpPart (cs : List Char) : Option Int :=
  match cs with
  | '+' :: rest =>
    if rest ≠ [] ∧ rest.all Char.isDigit then some (digitsVal rest) else none
  | '-' :: rest =>
    if rest ≠ [] ∧ rest.all Char.isDigit then some (-(digitsVal rest : Int)) else none
  | _ => if cs ≠ [] ∧ cs.all Char.isDigit then some (digitsVal cs) else none

/-- `10^e` over the rationals for a signed exponent. -/
def pow10 (e : Int) : Rat :=
  if 0 ≤ e then (10 : Rat) ^ e.toNat else 1 / (10 : Rat) ^ (-e).toNat

/-- An unsigned Python float literal: mantissa with optional exponent. -/
def parseUnsigned (cs : List Char) : Option Rat :=
  let (m, e) := splitExp cs
  match parseMantissa m with
  | none => none
  | some q =>
    match e with
    | none => some q
    | some ecs =>
      match parseExpPart ecs with
      | none => none
      | some k => some (q * pow10 k)

/-- Python `float(s)` on a string, as an exact rational: accepts an optionally
signed decimal literal with optional fraction and exponent, and rejects everything
else.  (The `inf`/`nan` spellings, embedded underscores and surrounding whitespace
that CPython also accepts are outside the inputs this development exercises.) -/
def parsePyFloat (s : String) : Option Rat :=
  match s.data with
  | '+' :: rest => parseUnsigned rest
  | '-' :: rest => (parseUnsigned rest).map Neg.neg
  | cs => parseUnsigned cs

/-- The nested helper `to_flg(value)` of `__to_df`: Python equality of the value with the literal string true. -/
def to_flg (value : RawCell) : Bool :=
  value == RawCell.scalar "true"

/-- The cast entry for STRING, DATETIME, DATE and TIME columns: Python `str`. -/
def strCast (c : RawCell) : Except PyError CastValue :=
  .ok (.str (pyStr c))

/-- The cast entry for FLOAT and INTEGER columns: Python `float`. -/
def floatCast : RawCell → Except PyError CastValue
  | .scalar s =>
    match parsePyFloat s with
    | some q => .ok (.float q)
    | none => .error (.valueError ("could not convert string to float: " ++ s))
  | .arr _ => .error (.typeError "float() argument must be a string or a number")
  | .null => .error (.typeError "float() argument must be a string or a number")

/-- The cast entry for BOOLEAN columns: the helper `to_flg`. -/
def boolCast (c : RawCell) : Except PyError CastValue :=
  .ok (.bool (to_flg c))

/-- The cast entry for TIMESTAMP columns: `pd.Timestamp`, an external pandas
constructor.  Its parse of a string is abstracted as an uninterpreted tag on the input
text (no claim depends on timestamp parse semantics); a non-string input raises. -/
def timestampCast : RawCell → Except PyError CastValue
  | .scalar s => .ok (.timestamp s)
  | .arr _ => .error (.typeError "Cannot convert input to Timestamp")
  | .null => .error (.typeError "Cannot convert input to Timestamp")

/-- The `cast_mapping` dictionary of `cast_all_column`, looked up with
`cast_mapping.get(values_type, (None, None))`: maps a logical type string to its
casting function and the new pandas column dtype (`none` meaning the source passed
`None`, leaving the dtype to pandas inference). -/
def cast_mapping (values_type : String) :
    Option ((RawCell → Except PyError CastValue) × Option Dtype) :=
  if values_type = "STRING" then some (strCast, none)
  else if values_type = "DATETIME" then some (strCast, none)
  else if values_type = "DATE" then some (strCast, none)
  else if values_type = "TIME" then some (strCast, none)
  else if values_type = "FLOAT" then some (floatCast, some .float64)
  else if values_type = "INTEGER" then some (floatCast, some .float64)
  else if values_type = "BOOLEAN" then some (boolCast, some .bool_)
  else if values_type = "TIMESTAMP" then some (timestampCast, some .datetime64)
  else none

/-- The eight logical type strings `cast_mapping` supports. -/
def supportedTypes : List String :=
  ["STRING", "DATETIME", "DATE", "TIME", "FLOAT", "INTEGER", "BOOLEAN", "TIMESTAMP"]

/-- The `row_no is None` branch of `cast_column`: walk the rows in order, leave
`None` cells alone, cast every other cell, raising at the first failing row. -/
def castColumnSimple :
    List RawCell → (RawCell → Except PyError CastValue) →
    Except PyError (List (Option CastValue))
  | [], _ => .ok []
  | RawCell.null :: rest, f =>
    match castColumnSimple rest f with
    | .error e => .error e
    | .ok out => .ok (none :: out)
  | v :: rest, f =>
    match f v with
    | .error e => .error e
    | .ok cv =>
      match castColumnSimple rest f with
      | .error e => .error e
      | .ok out => .ok (some cv :: out)

/-- The repeated branch of `cast_column`: start from a row of `None` placeholders
and, for each row, use `cast_function(value[row_no])` whenever
`row_no < len(value) and value[row_no] is not None`.  `len(value)` raises on a
non-sequence cell before the bounds test, exactly as in Python. -/
def castColumnRepeated :
    List RawCell → (RawCell → Except PyError CastValue) → Nat →
    Except PyError (List (Option CastValue))
  | [], _, _ => .ok []
  | v :: rest, f, row_no =>
    match pyLen v with
    | .error e => .error e
    | .ok n =>
      match
        (if row_no < n then
          match pyIndex v row_no with
          | none => Except.ok none
          | some elem =>
            match f (RawCell.scalar elem) with
            | .error e => Except.error e
            | .ok cv => Except.ok (some cv)
        else Except.ok (none : Option CastValue)) with
      | .error e => .error e
      | .ok ov =>
        match castColumnRepeated rest f row_no with
        | .error e => .error e
        | .ok out => .ok (ov :: out)

/-- The nested helper `cast_column(values, cast_function, row_no)` of `__to_df`,
dispatching on whether `row_no` was supplied (REPEATED column) or not. -/
def cast_column (values : List RawCell)
    (cast_function : RawCell → Except PyError CastValue) :
    Option Nat → Except PyError (List (Option CastValue))
  | none => castColumnSimple values cast_function
  | some row_no => castColumnRepeated values cast_function row_no

/-- The nested helper `cast_all_column(values, values_type, row_no)` of `__to_df`:
look the type up in `cast_mapping`, raise the unsupported-type exception when the
lookup comes back empty, otherwise cast the column and return the new dtype. -/
def cast_all_column (values : List RawCell) (values_type : String)
    (row_no : Option Nat) :
    Except PyError (List (Option CastValue) × Option Dtype) :=
  match cast_mapping values_type with
  | none => .error (.unsupportedType values_type)
  | some (cast_function, new_values_type) =>
    match cast_column values cast_function row_no with
    | .error e => .error e
    | .ok vals => .ok (vals, new_values_type)

/-- `pd.Series(data=..., dtype=...)` as observed by `__to_bq_schema`: an explicit
dtype is kept; `dtype=None` (the STRING/DATETIME/DATE/TIME rows of `cast_mapping`,
whose data are Python strings and `None`) leaves pandas to infer `object`. -/
def seriesDtype (dt : Option Dtype) : Dtype :=
  dt.getD .object_

/-- The `for no_in_row in range(max_row_length)` loop body of the REPEATED branch:
one physical output column named `col_name + "_" + str(no_in_row)` per index. -/
def emitRepeat (rv : List RawCell) (name ty : String) :
    List Nat → Except PyError Table
  | [] => .ok []
  | i :: is =>
    match cast_all_column rv ty (some i) with
    | .error e => .error e
    | .ok (vals, dt) =>
      match emitRepeat rv name ty is with
      | .error e => .error e
      | .ok rest => .ok ((name ++ "_" ++ toString i, seriesDtype dt, vals) :: rest)

/-- The body of the per-schema-column loop of `__to_df`, applied to the column`s
raw values `row_values = rows[0]`: the REPEATED branch computes
`max([len(row_value) for row_value in row_values])` and emits one physical column
per index below it; the other branch emits the single cast column. -/
def processColumn (rv : List RawCell) (c : SchemaField) : Except PyError Table :=
  if c.mode = "REPEATED" then
    match pyLenList rv with
    | .error e => .error e
    | .ok lens =>
      match pyMax lens with
      | .error e => .error e
      | .ok maxLen => emitRepeat rv c.name c.field_type (List.range maxLen)
  else
    match cast_all_column rv c.field_type none with
    | .error e => .error e
    | .ok (vals, dt) => .ok [(c.name, seriesDtype dt, vals)]

/-- The per-schema-column loop of `__to_df`: each schema entry consumes the front
entry of `rows` (the source does this destructively with `del rows[0]`; the
behaviour — each outer entry read once, in schema order — is the same), raising
`IndexError` when `rows` is exhausted before the schema is.  Outer entries beyond
the schema length are never read. -/
def toDfColumns : List (List RawCell) → List SchemaField → Except PyError Table
  | _, [] => .ok []
  | [], _ :: _ => .error .indexError
  | rv :: rrest, c :: rest =>
    match processColumn rv c with
    | .error e => .error e
    | .ok cols =>
      match toDfColumns rrest rest with
      | .error e => .error e
      | .ok tbl => .ok (cols ++ tbl)

/-- `BQLite.__to_df(rows, schema)`: the `len(rows) == 0` short-circuit returns the
empty `pd.DataFrame()`, otherwise the column loop feeds
`pd.DataFrame.from_items(columns_data)`. -/
def to_df (rows : List (List RawCell)) (schema : List SchemaField) :
    Except PyError Table :=
  if rows.length = 0 then .ok ([] : Table) else toDfColumns rows schema

/-- The `type_mapping` dictionary of `__to_bq_schema`, looked up with
`type_mapping.get` with the STRING default. -/
def type_mapping (kind : String) : Option String :=
  if kind = "i" then some "INTEGER"
  else if kind = "b" then some "BOOLEAN"
  else if kind = "f" then some "FLOAT"
  else if kind = "O" then some "STRING"
  else if kind = "S" then some "STRING"
  else if kind = "U" then some "STRING"
  else if kind = "M" then some "TIMESTAMP"
  else none

/-- `BQLite.__to_bq_schema(schema_df)`: one `SchemaField(column_name, type)` per
column of the dataframe, in column order (`schema_df.dtypes.iteritems()`).  The
external `SchemaField` constructor defaults `mode` to NULLABLE. -/
def to_bq_schema (schema_df : Table) : List SchemaField :=
  schema_df.map fun col =>
    ⟨col.1, (type_mapping col.2.1.kind).getD "STRING", "NULLABLE"⟩

/-- A Python value handed to `BQLiteTable.insert_data` inside a row (a cell of
`load_df.values`): `None`, the float `nan`, or an ordinary value. -/
inductive PyVal where
  | none
  | nan
  | str (s : String)
  | num (q : Rat)
deriving DecidableEq, Repr

/-- Python `==` on these values: `nan` compares unequal to everything, itself
included; other values compare structurally. -/
def pyEq : PyVal → PyVal → Bool
  | .nan, _ => false
  | _, .nan => false
  | a, b => a == b

/-- Python dict assignment `row_info[field.name] = value`: replace the value of an
existing key in place, else append the new key at the end. -/
def dictInsert : List (String × PyVal) → String → PyVal → List (String × PyVal)
  | [], k, v => [(k, v)]
  | (k0, v0) :: rest, k, v =>
    if k0 = k then (k, v) :: rest else (k0, v0) :: dictInsert rest k v

/-- Python dict read access `row_info[key]` on the association-list model. -/
def dictLookup : List (String × PyVal) → String → Option PyVal
  | [], _ => none
  | (k0, v0) :: rest, k => if k0 = k then some v0 else dictLookup rest k

/-- One iteration of the `for field, value in zip(self._schema, row)` loop of
`BQLiteTable.insert_data`: a TIMESTAMP field`s value first goes through
`_convert_timestamp` (an external google-cloud helper, passed in here as
`convertTs`), then the cell is stored under the field name only when
`value is not None and value == value`. -/
def stepRowInfo (convertTs : PyVal → PyVal) (f : SchemaField) (v : PyVal)
    (acc : List (String × PyVal)) : List (String × PyVal) :=
  let v := if f.field_type = "TIMESTAMP" then convertTs v else v
  if v ≠ PyVal.none ∧ pyEq v v then dictInsert acc f.name v else acc

/-- The full zip loop of `BQLiteTable.insert_data`, building one row`s JSON
payload `row_info` (`zip` truncates at the shorter of schema and row). -/
def buildRowInfo (convertTs : PyVal → PyVal) :
    List SchemaField → List PyVal → List (String × PyVal) → List (String × PyVal)
  | [], _, acc => acc
  | _ :: _, [], acc => acc
  | f :: fs, v :: vs, acc =>
    buildRowInfo convertTs fs vs (stepRowInfo convertTs f v acc)

/-- One row`s `row_info` payload in `BQLiteTable.insert_data`. -/
def row_json (convertTs : PyVal → PyVal) (schema : List SchemaField)
    (row : List PyVal) : List (String × PyVal) :=
  buildRowInfo convertTs schema row []

/-- The payload-building loop of `BQLiteTable.insert_data`: the json member of
each entry of `rows_info`, one per input row, in order. -/
def insert_data (convertTs : PyVal → PyVal) (schema : List SchemaField)
    (rows : List (List PyVal)) : List (List (String × PyVal)) :=
  rows.map (row_json convertTs schema)

/-! ## Helper lemmas about the materialization pipeline -/

theorem castColumnSimple_length (rv : List RawCell)
    (f : RawCell → Except PyError CastValue) (vals : List (Option CastValue))
    (h : castColumnSimple rv f = .ok vals) : vals.length = rv.length := by
  induction rv generalizing vals with
  | nil =>
    simp only [castColumnSimple] at h
    cases h
    rfl
  | cons c cs ih =>
    cases c with
    | null =>
      simp only [castColumnSimple] at h
      cases hrec : castColumnSimple cs f with
      | error e => rw [hrec] at h; cases h
      | ok out => rw [hrec] at h; cases h; simp [ih out hrec]
    | scalar s =>
      simp only [castColumnSimple] at h
      cases hf : f (RawCell.scalar s) with
      | error e => rw [hf] at h; cases h
      | ok cv =>
        rw [hf] at h
        cases hrec : castColumnSimple cs f with
        | error e => rw [hrec] at h; cases h
        | ok out => rw [hrec] at h; cases h; simp [ih out hrec]
    | arr xs =>
      simp only [castColumnSimple] at h
      cases hf : f (RawCell.arr xs) with
      | error e => rw [hf] at h; cases h
      | ok cv =>
        rw [hf] at h
        cases hrec : castColumnSimple cs f with
        | error e => rw [hrec] at h; cases h
        | ok out => rw [hrec] at h; cases h; simp [ih out hrec]

theorem castColumnSimple_cons_ok (c : RawCell) (cs : List RawCell)
    (f : RawCell → Except PyError CastValue) (vals : List (Option CastValue))
    (h : castColumnSimple (c :: cs) f = .ok vals) :
    ∃ ov out, vals = ov :: out ∧ castColumnSimple cs f = .ok out ∧
      ((c = RawCell.null ∧ ov = none) ∨
        (c ≠ RawCell.null ∧ ∃ cv, f c = .ok cv ∧ ov = some cv)) := by
  cases c with
  | null =>
    simp only [castColumnSimple] at h
    cases hrec : castColumnSimple cs f with
    | error e => rw [hrec] at h; cases h
    | ok out =>
      rw [hrec] at h; cases h
      exact ⟨none, out, rfl, rfl, Or.inl ⟨rfl, rfl⟩⟩
  | scalar s =>
    simp only [castColumnSimple] at h
    cases hf : f (RawCell.scalar s) with
    | error e => rw [hf] at h; cases h
    | ok cv =>
      rw [hf] at h
      cases hrec : castColumnSimple cs f with
      | error e => rw [hrec] at h; cases h
      | ok out =>
        rw [hrec] at h; cases h
        exact ⟨some cv, out, rfl, rfl, Or.inr ⟨by simp, cv, rfl, rfl⟩⟩
  | arr xs =>
    simp only [castColumnSimple] at h
    cases hf : f (RawCell.arr xs) with
    | error e => rw [hf] at h; cases h
    | ok cv =>
      rw [hf] at h
      cases hrec : castColumnSimple cs f with
      | error e => rw [hrec] at h; cases h
      | ok out =>
        rw [hrec] at h; cases h
        exact ⟨some cv, out, rfl, rfl, Or.inr ⟨by simp, cv, rfl, rfl⟩⟩

theorem castColumnSimple_null_at (rv : List RawCell)
    (f : RawCell → Except PyError CastValue) (vals : List (Option CastValue))
    (h : castColumnSimple rv f = .ok vals) :
    ∀ r : Nat, rv[r]? = some RawCell.null → vals[r]? = some none := by
  induction rv generalizing vals with
  | nil => intro r hr; simp at hr
  | cons c cs ih =>
    intro r hr
    obtain ⟨ov, out, rfl, hrec, hov⟩ := castColumnSimple_cons_ok c cs f vals h
    cases r with
    | zero =>
      simp only [List.getElem?_cons_zero, Option.some.injEq] at hr
      rcases hov with ⟨_, rfl⟩ | ⟨hne, _⟩
      · simp
      · exact absurd hr hne
    | succ n =>
      simp only [List.getElem?_cons_succ] at hr ⊢
      exact ih out hrec n hr

theorem castColumnSimple_cast_at (rv : List RawCell)
    (f : RawCell → Except PyError CastValue) (vals : List (Option CastValue))
    (h : castColumnSimple rv f = .ok vals) :
    ∀ (r : Nat) (cell : RawCell), rv[r]? = some cell → cell ≠ RawCell.null →
      ∃ cv, f cell = .ok cv ∧ vals[r]? = some (some cv) := by
  induction rv generalizing vals with
  | nil => intro r cell hr; simp at hr
  | cons c cs ih =>
    intro r cell hr hne
    obtain ⟨ov, out, rfl, hrec, hov⟩ := castColumnSimple_cons_ok c cs f vals h
    cases r with
    | zero =>
      simp only [List.getElem?_cons_zero, Option.some.injEq] at hr
      subst hr
      rcases hov with ⟨rfl, _⟩ | ⟨_, cv, hcv, rfl⟩
      · exact absurd rfl hne
      · exact ⟨cv, hcv, by simp⟩
    | succ n =>
      simp only [List.getElem?_cons_succ] at hr ⊢
      exact ih out hrec n cell hr hne

theorem castColumnRepeated_cons_ok (v : RawCell) (rest : List RawCell)
    (f : RawCell → Except PyError CastValue) (row_no : Nat)
    (vals : List (Option CastValue))
    (h : castColumnRepeated (v :: rest) f row_no = .ok vals) :
    ∃ n ov out, pyLen v = .ok n ∧ vals = ov :: out ∧
      castColumnRepeated rest f row_no = .ok out ∧
      ((¬ row_no < n ∧ ov = none) ∨
        (row_no < n ∧ pyIndex v row_no = none ∧ ov = none) ∨
        (row_no < n ∧ ∃ elem cv, pyIndex v row_no = some elem ∧
          f (RawCell.scalar elem) = .ok cv ∧ ov = some cv)) := by
  simp only [castColumnRepeated] at h
  cases hn : pyLen v with
  | error e => rw [hn] at h; cases h
  | ok n =>
    rw [hn] at h
    by_cases hlt : row_no < n
    · simp only [if_pos hlt] at h
      cases hidx : pyIndex v row_no with
      | none =>
        simp only [hidx] at h
        cases hrec : castColumnRepeated rest f row_no with
        | error e => simp only [hrec] at h; cases h
        | ok out =>
          simp only [hrec, Except.ok.injEq] at h
          exact ⟨n, none, out, rfl, h.symm, rfl, Or.inr (Or.inl ⟨hlt, rfl, rfl⟩)⟩
      | some elem =>
        simp only [hidx] at h
        cases hf : f (RawCell.scalar elem) with
        | error e => simp only [hf] at h; cases h
        | ok cv =>
          simp only [hf] at h
          cases hrec : castColumnRepeated rest f row_no with
          | error e => simp only [hrec] at h; cases h
          | ok out =>
            simp only [hrec, Except.ok.injEq] at h
            exact ⟨n, some cv, out, rfl, h.symm, rfl,
              Or.inr (Or.inr ⟨hlt, elem, cv, rfl, hf, rfl⟩)⟩
    · simp only [if_neg hlt] at h
      cases hrec : castColumnRepeated rest f row_no with
      | error e => simp only [hrec] at h; cases h
      | ok out =>
        simp only [hrec, Except.ok.injEq] at h
        exact ⟨n, none, out, rfl, h.symm, rfl, Or.inl ⟨hlt, rfl⟩⟩

theorem castColumnRepeated_length (rv : List RawCell)
    (f : RawCell → Except PyError CastValue) (row_no : Nat)
    (vals : List (Option CastValue))
    (h : castColumnRepeated rv f row_no = .ok vals) : vals.length = rv.length := by
  induction rv generalizing vals with
  | nil => simp only [castColumnRepeated] at h; cases h; rfl
  | cons v rest ih =>
    obtain ⟨n, ov, out, _, rfl, hrec, _⟩ :=
      castColumnRepeated_cons_ok v rest f row_no vals h
    simp [ih out hrec]

theorem castColumnRepeated_arr_at (rv : List RawCell)
    (f : RawCell → Except PyError CastValue) (row_no : Nat)
    (vals : List (Option CastValue))
    (h : castColumnRepeated rv f row_no = .ok vals) :
    ∀ (r : Nat) (xs : List (Option String)), rv[r]? = some (RawCell.arr xs) →
      ((xs.length ≤ row_no → vals[r]? = some none) ∧
        (∀ (hlt : row_no < xs.length),
          (xs[row_no] = none → vals[r]? = some none) ∧
          (∀ elem, xs[row_no] = some elem →
            ∃ cv, f (RawCell.scalar elem) = .ok cv ∧ vals[r]? = some (some cv)))) := by
  induction rv generalizing vals with
  | nil => intro r xs hr; simp at hr
  | cons v rest ih =>
    intro r xs hr
    obtain ⟨n, ov, out, hn, rfl, hrec, hov⟩ :=
      castColumnRepeated_cons_ok v rest f row_no vals h
    cases r with
    | zero =>
      simp only [List.getElem?_cons_zero, Option.some.injEq] at hr
      subst hr
      simp only [pyLen, Except.ok.injEq] at hn
      subst hn
      constructor
      · intro hge
        rcases hov with ⟨_, rfl⟩ | ⟨hlt, _, _⟩ | ⟨hlt, _⟩
        · simp
        · omega
        · omega
      · intro hlt
        constructor
        · intro hnone
          rcases hov with ⟨hge, rfl⟩ | ⟨_, _, rfl⟩ | ⟨_, elem, cv, hidx, _, rfl⟩
          · simp
          · simp
          · simp only [pyIndex] at hidx
            rw [List.getD_eq_getElem?_getD, List.getElem?_eq_getElem hlt, hnone] at hidx
            simp at hidx
        · intro elem helem
          rcases hov with ⟨hge, rfl⟩ | ⟨_, hidx, rfl⟩ | ⟨_, elem2, cv, hidx, hcv, rfl⟩
          · omega
          · simp only [pyIndex] at hidx
            rw [List.getD_eq_getElem?_getD, List.getElem?_eq_getElem hlt, helem] at hidx
            simp at hidx
          · simp only [pyIndex] at hidx
            rw [List.getD_eq_getElem?_getD, List.getElem?_eq_getElem hlt, helem] at hidx
            simp only [Option.getD_some, Option.some.injEq] at hidx
            subst hidx
            exact ⟨cv, hcv, by simp⟩
    | succ m =>
      simp only [List.getElem?_cons_succ] at hr ⊢
      exact ih out hrec m xs hr

theorem le_foldl_max (l : List Nat) (a : Nat) : a ≤ l.foldl Nat.max a := by
  induction l generalizing a with
  | nil => simp
  | cons x xs ih => exact le_trans (Nat.le_max_left a x) (ih (Nat.max a x))

theorem mem_le_foldl_max (l : List Nat) : ∀ a x : Nat, x ∈ l → x ≤ l.foldl Nat.max a := by
  induction l with
  | nil => intro a x hx; simp at hx
  | cons y ys ih =>
    intro a x hx
    rcases List.mem_cons.mp hx with rfl | hmem
    · exact le_trans (Nat.le_max_right a x) (le_foldl_max ys (Nat.max a x))
    · exact ih (Nat.max a y) x hmem

theorem foldl_max_cases (l : List Nat) : ∀ a : Nat, l.foldl Nat.max a = a ∨ l.foldl Nat.max a ∈ l := by
  induction l with
  | nil => intro a; exact Or.inl rfl
  | cons x xs ih =>
    intro a
    rw [List.foldl_cons]
    rcases ih (Nat.max a x) with h | h
    · rw [h]
      rcases Nat.le_total x a with hxa | hax
      · left; exact Nat.max_eq_left hxa
      · right
        have hx : Nat.max a x = x := Nat.max_eq_right hax
        rw [hx]
        exact List.mem_cons_self x xs
    · right; exact List.mem_cons_of_mem x h

theorem pyLenList_arr (rv : List RawCell)
    (hseq : ∀ c ∈ rv, ∃ xs : List (Option String), c = RawCell.arr xs) :
    pyLenList rv =
      .ok (rv.map fun c =>
        match c with
        | RawCell.arr xs => xs.length
        | RawCell.scalar s => s.length
        | RawCell.null => 0) := by
  induction rv with
  | nil => rfl
  | cons c cs ih =>
    obtain ⟨xs, rfl⟩ := hseq c (List.mem_cons_self c cs)
    have hrest := ih fun d hd => hseq d (List.mem_cons_of_mem _ hd)
    simp only [pyLenList, pyLen, hrest, List.map_cons]

theorem cast_all_column_ok_inv (values : List RawCell) (ty : String)
    (row_no : Option Nat) (vals : List (Option CastValue)) (dt : Option Dtype)
    (h : cast_all_column values ty row_no = .ok (vals, dt)) :
    ∃ f, cast_mapping ty = some (f, dt) ∧ cast_column values f row_no = .ok vals := by
  simp only [cast_all_column] at h
  cases hmap : cast_mapping ty with
  | none => rw [hmap] at h; cases h
  | some p =>
    obtain ⟨f, dt0⟩ := p
    rw [hmap] at h
    cases hcc : cast_column values f row_no with
    | error e => simp only [hcc] at h; cases h
    | ok vals0 =>
      simp only [hcc, Except.ok.injEq, Prod.mk.injEq] at h
      obtain ⟨rfl, rfl⟩ := h
      exact ⟨f, rfl, hcc⟩

theorem emitRepeat_ok (rv : List RawCell) (name ty : String) (idxs : List Nat)
    (block : Table) (h : emitRepeat rv name ty idxs = .ok block) :
    block.length = idxs.length ∧
      ∀ k i : Nat, idxs[k]? = some i →
        ∃ f dt vals, cast_mapping ty = some (f, dt) ∧
          castColumnRepeated rv f i = .ok vals ∧
          block[k]? = some (name ++ "_" ++ toString i, seriesDtype dt, vals) := by
  induction idxs generalizing block with
  | nil =>
    simp only [emitRepeat] at h
    cases h
    exact ⟨rfl, by intro k i hk; simp at hk⟩
  | cons i0 is ih =>
    simp only [emitRepeat] at h
    cases hcast : cast_all_column rv ty (some i0) with
    | error e => rw [hcast] at h; cases h
    | ok p =>
      obtain ⟨vals0, dt0⟩ := p
      rw [hcast] at h
      cases hrec : emitRepeat rv name ty is with
      | error e => simp only [hrec] at h; cases h
      | ok rest =>
        simp only [hrec, Except.ok.injEq] at h
        subst h
        obtain ⟨hlen, hspec⟩ := ih rest hrec
        obtain ⟨f, hmap, hcc⟩ := cast_all_column_ok_inv rv ty (some i0) vals0 dt0 hcast
        refine ⟨by simp [hlen], ?_⟩
        intro k i hk
        cases k with
        | zero =>
          simp only [List.getElem?_cons_zero, Option.some.injEq] at hk
          subst hk
          exact ⟨f, dt0, vals0, hmap, hcc, by simp⟩
        | succ m =>
          simp only [List.getElem?_cons_succ] at hk ⊢
          exact hspec m i hk

theorem processColumn_nonrep_ok (rv : List RawCell) (c : SchemaField)
    (cols : Table) (hm : c.mode ≠ "REPEATED")
    (h : processColumn rv c = .ok cols) :
    ∃ f dt vals, cast_mapping c.field_type = some (f, dt) ∧
      castColumnSimple rv f = .ok vals ∧
      cols = [(c.name, seriesDtype dt, vals)] := by
  simp only [processColumn, if_neg hm] at h
  cases hcast : cast_all_column rv c.field_type none with
  | error e => rw [hcast] at h; cases h
  | ok p =>
    obtain ⟨vals, dt⟩ := p
    rw [hcast] at h
    cases h
    obtain ⟨f, hmap, hcc⟩ := cast_all_column_ok_inv rv c.field_type none vals dt hcast
    exact ⟨f, dt, vals, hmap, hcc, rfl⟩

theorem processColumn_rep_ok (rv : List RawCell) (c : SchemaField)
    (cols : Table) (hm : c.mode = "REPEATED")
    (h : processColumn rv c = .ok cols) :
    ∃ lens maxLen, pyLenList rv = .ok lens ∧ pyMax lens = .ok maxLen ∧
      emitRepeat rv c.name c.field_type (List.range maxLen) = .ok cols := by
  simp only [processColumn, if_pos hm] at h
  cases hlens : pyLenList rv with
  | error e => rw [hlens] at h; cases h
  | ok lens =>
    simp only [hlens] at h
    cases hmax : pyMax lens with
    | error e => simp only [hmax] at h; cases h
    | ok maxLen =>
      simp only [hmax] at h
      exact ⟨lens, maxLen, rfl, hmax, h⟩

theorem toDfColumns_length_le (rows : List (List RawCell))
    (schema : List SchemaField) (tbl : Table)
    (h : toDfColumns rows schema = .ok tbl) : schema.length ≤ rows.length := by
  induction schema generalizing rows tbl with
  | nil => simp
  | cons c rest ih =>
    cases rows with
    | nil => simp only [toDfColumns] at h; cases h
    | cons rv rrest =>
      simp only [toDfColumns] at h
      cases hp : processColumn rv c with
      | error e => rw [hp] at h; cases h
      | ok cols =>
        simp only [hp] at h
        cases hrec : toDfColumns rrest rest with
        | error e => simp only [hrec] at h; cases h
        | ok tbl2 =>
          have := ih rrest tbl2 hrec
          simp only [List.length_cons]
          omega

theorem toDfColumns_locate (rows : List (List RawCell))
    (schema : List SchemaField) (tbl : Table)
    (h : toDfColumns rows schema = .ok tbl) :
    ∀ (j : Nat) (rv : List RawCell) (c : SchemaField),
      rows[j]? = some rv → schema[j]? = some c →
      ∃ pre cols post, tbl = pre ++ cols ++ post ∧
        processColumn rv c = .ok cols := by
  induction schema generalizing rows tbl with
  | nil => intro j rv c _ hc; simp at hc
  | cons c0 rest ih =>
    intro j rv c hrv hc
    cases rows with
    | nil => simp only [toDfColumns] at h; cases h
    | cons rv0 rrest =>
      simp only [toDfColumns] at h
      cases hp : processColumn rv0 c0 with
      | error e => rw [hp] at h; cases h
      | ok cols0 =>
        simp only [hp] at h
        cases hrec : toDfColumns rrest rest with
        | error e => simp only [hrec] at h; cases h
        | ok tbl2 =>
          simp only [hrec, Except.ok.injEq] at h
          subst h
          cases j with
          | zero =>
            simp only [List.getElem?_cons_zero, Option.some.injEq] at hrv hc
            subst hrv; subst hc
            exact ⟨[], cols0, tbl2, by simp, hp⟩
          | succ m =>
            simp only [List.getElem?_cons_succ] at hrv hc
            obtain ⟨pre, cols, post, heq, hpc⟩ := ih rrest tbl2 hrec m rv c hrv hc
            exact ⟨cols0 ++ pre, cols, post, by simp [heq], hpc⟩

theorem to_df_eq_columns (rows : List (List RawCell)) (schema : List SchemaField)
    (hne : rows ≠ []) : to_df rows schema = toDfColumns rows schema := by
  cases rows with
  | nil => exact absurd rfl hne
  | cons rv rrest => simp [to_df]

/-! ## Claim theorems -/

/-- Claim C1: for every non-REPEATED column of every logical type, a null (`None`)
input value in the raw row page yields a null value at the same row position in the
typed table returned by `__to_df`; nulls are never coerced to a sentinel value. -/
theorem c1_null_preserved (rows : List (List RawCell)) (schema : List SchemaField)
    (tbl : Table) (j : Nat) (c : SchemaField) (rv : List RawCell)
    (h : to_df rows schema = .ok tbl)
    (hc : schema[j]? = some c) (hrv : rows[j]? = some rv)
    (hm : c.mode ≠ "REPEATED") :
    ∃ dt vals, (c.name, dt, vals) ∈ tbl ∧ vals.length = rv.length ∧
      ∀ r : Nat, rv[r]? = some RawCell.null → vals[r]? = some none := by
  cases rows with
  | nil => simp at hrv
  | cons rv0 rrest =>
    rw [to_df_eq_columns _ _ (by simp)] at h
    obtain ⟨pre, cols, post, rfl, hpc⟩ :=
      toDfColumns_locate _ _ _ h j rv c hrv hc
    obtain ⟨f, dt, vals, hmap, hcc, rfl⟩ := processColumn_nonrep_ok _ _ _ hm hpc
    refine ⟨seriesDtype dt, vals, ?_,
      castColumnSimple_length _ _ _ hcc, castColumnSimple_null_at _ _ _ hcc⟩
    simp [List.mem_append]

theorem c1_null_preserved_witness :
    ∃ dt vals,
      ("a", dt, vals) ∈ ([("a", Dtype.object_, [none, some (CastValue.str "x")])] : Table) ∧
      vals[0]? = some none := by
  obtain ⟨dt, vals, hmem, _, hnull⟩ :=
    c1_null_preserved [[RawCell.null, RawCell.scalar "x"]] [⟨"a", "STRING", "NULLABLE"⟩]
      [("a", Dtype.object_, [none, some (CastValue.str "x")])] 0
      ⟨"a", "STRING", "NULLABLE"⟩ [RawCell.null, RawCell.scalar "x"]
      rfl rfl rfl (by decide)
  exact ⟨dt, vals, hmem, hnull 0 rfl⟩

/-- Claim C2: in a BOOLEAN column, `__to_df` casts a non-null value to `true`
exactly when the value equals the literal string `"true"` (case-sensitive, exact);
every other value casts to `false`. -/
theorem c2_boolean_literal_true (rows : List (List RawCell))
    (schema : List SchemaField) (tbl : Table) (j : Nat) (c : SchemaField)
    (rv : List RawCell)
    (h : to_df rows schema = .ok tbl)
    (hc : schema[j]? = some c) (hrv : rows[j]? = some rv)
    (hm : c.mode ≠ "REPEATED") (hty : c.field_type = "BOOLEAN") :
    ∃ vals, (c.name, Dtype.bool_, vals) ∈ tbl ∧ vals.length = rv.length ∧
      ∀ (r : Nat) (cell : RawCell), rv[r]? = some cell → cell ≠ RawCell.null →
        vals[r]? = some (some (CastValue.bool (to_flg cell))) ∧
        (to_flg cell = true ↔ cell = RawCell.scalar "true") := by
  cases rows with
  | nil => simp at hrv
  | cons rv0 rrest =>
    rw [to_df_eq_columns _ _ (by simp)] at h
    obtain ⟨pre, cols, post, rfl, hpc⟩ :=
      toDfColumns_locate _ _ _ h j rv c hrv hc
    obtain ⟨f, dt, vals, hmap, hcc, rfl⟩ := processColumn_nonrep_ok _ _ _ hm hpc
    rw [hty] at hmap
    have h1 : (boolCast, some Dtype.bool_) = (f, dt) := Option.some.inj hmap
    rw [Prod.mk.injEq] at h1
    obtain ⟨hf, hd⟩ := h1
    subst hf
    subst hd
    refine ⟨vals, by simp [List.mem_append, seriesDtype],
      castColumnSimple_length _ _ _ hcc, ?_⟩
    intro r cell hcell hne
    obtain ⟨cv, hcv, hval⟩ := castColumnSimple_cast_at _ _ _ hcc r cell hcell hne
    have h2 : Except.ok (CastValue.bool (to_flg cell)) = Except.ok cv := hcv
    obtain rfl := (Except.ok.inj h2).symm
    exact ⟨hval, by simp [to_flg]⟩

theorem c2_boolean_literal_true_witness :
    ∃ vals,
      ("b", Dtype.bool_, vals) ∈
        ([("b", Dtype.bool_,
          [some (CastValue.bool true), some (CastValue.bool false),
           some (CastValue.bool false), some (CastValue.bool false),
           some (CastValue.bool false), none])] : Table) ∧
      vals[0]? = some (some (CastValue.bool true)) ∧
      vals[1]? = some (some (CastValue.bool false)) := by
  obtain ⟨vals, hmem, _, hcell⟩ :=
    c2_boolean_literal_true
      [[RawCell.scalar "true", RawCell.scalar "True", RawCell.scalar "1",
        RawCell.scalar "false", RawCell.scalar "", RawCell.null]]
      [⟨"b", "BOOLEAN", "NULLABLE"⟩]
      [("b", Dtype.bool_,
        [some (CastValue.bool true), some (CastValue.bool false),
         some (CastValue.bool false), some (CastValue.bool false),
         some (CastValue.bool false), none])]
      0 ⟨"b", "BOOLEAN", "NULLABLE"⟩
      [RawCell.scalar "true", RawCell.scalar "True", RawCell.scalar "1",
       RawCell.scalar "false", RawCell.scalar "", RawCell.null]
      rfl rfl rfl (by decide) rfl
  refine ⟨vals, hmem, ?_, ?_⟩
  · exact (hcell 0 (RawCell.scalar "true") rfl (by decide)).1
  · exact (hcell 1 (RawCell.scalar "True") rfl (by decide)).1

/-- Claim C6: an empty raw row page short-circuits `__to_df` to an empty typed
table, with zero columns and zero rows, regardless of the schema content. -/
theorem c6_empty_page_empty_table :
    ∀ schema : List SchemaField, to_df [] schema = .ok ([] : Table) :=
  fun _ => rfl

/-- Claim C7: a FLOAT or INTEGER column is stored with 64-bit float dtype; every
non-null value is cast through Python `float` (so an integer raw value such as `1`
appears as `1.0`), and null values coexist in the column as missing values. -/
theorem c7_numeric_float_storage (rows : List (List RawCell))
    (schema : List SchemaField) (tbl : Table) (j : Nat) (c : SchemaField)
    (rv : List RawCell)
    (h : to_df rows schema = .ok tbl)
    (hc : schema[j]? = some c) (hrv : rows[j]? = some rv)
    (hm : c.mode ≠ "REPEATED")
    (hty : c.field_type = "FLOAT" ∨ c.field_type = "INTEGER") :
    ∃ vals, (c.name, Dtype.float64, vals) ∈ tbl ∧ vals.length = rv.length ∧
      ∀ r : Nat,
        (rv[r]? = some RawCell.null → vals[r]? = some none) ∧
        (∀ s : String, rv[r]? = some (RawCell.scalar s) →
          ∃ q, parsePyFloat s = some q ∧
            vals[r]? = some (some (CastValue.float q))) := by
  cases rows with
  | nil => simp at hrv
  | cons rv0 rrest =>
    rw [to_df_eq_columns _ _ (by simp)] at h
    obtain ⟨pre, cols, post, rfl, hpc⟩ :=
      toDfColumns_locate _ _ _ h j rv c hrv hc
    obtain ⟨f, dt, vals, hmap, hcc, rfl⟩ := processColumn_nonrep_ok _ _ _ hm hpc
    have h1 : (floatCast, some Dtype.float64) = (f, dt) := by
      rcases hty with hty | hty <;> rw [hty] at hmap <;> exact Option.some.inj hmap
    rw [Prod.mk.injEq] at h1
    obtain ⟨hf, hd⟩ := h1
    subst hf
    subst hd
    refine ⟨vals, by simp [List.mem_append, seriesDtype],
      castColumnSimple_length _ _ _ hcc, ?_⟩
    intro r
    refine ⟨castColumnSimple_null_at _ _ _ hcc r, ?_⟩
    intro s hcell
    obtain ⟨cv, hcv, hval⟩ :=
      castColumnSimple_cast_at _ _ _ hcc r (RawCell.scalar s) hcell (by simp)
    simp only [floatCast] at hcv
    cases hq : parsePyFloat s with
    | none => rw [hq] at hcv; cases hcv
    | some q =>
      rw [hq] at hcv
      obtain rfl := (Except.ok.inj hcv).symm
      exact ⟨q, rfl, hval⟩

theorem c7_numeric_float_storage_witness :
    ∃ vals,
      ("a", Dtype.float64, vals) ∈
        ([("a", Dtype.float64,
          [some (CastValue.float 1), none, some (CastValue.float 3)])] : Table) ∧
      vals[0]? = some (some (CastValue.float 1)) ∧ vals[1]? = some none := by
  obtain ⟨vals, hmem, _, hcell⟩ :=
    c7_numeric_float_storage
      [[RawCell.scalar "1", RawCell.null, RawCell.scalar "3"]]
      [⟨"a", "INTEGER", "NULLABLE"⟩]
      [("a", Dtype.float64,
        [some (CastValue.float 1), none, some (CastValue.float 3)])]
      0 ⟨"a", "INTEGER", "NULLABLE"⟩
      [RawCell.scalar "1", RawCell.null, RawCell.scalar "3"]
      rfl rfl rfl (by decide) (Or.inr rfl)
  obtain ⟨q, hq, hv⟩ := (hcell 0).2 "1" rfl
  have hq1 : q = 1 := by
    have : (some 1 : Option Rat) = some q := by rw [← hq]; rfl
    exact (Option.some.inj this).symm
  subst hq1
  exact ⟨vals, hmem, hv, (hcell 1).1 rfl⟩

/-- Claim C8: schema inference is total — every dtype kind maps through the fixed
table (signed integer to INTEGER, boolean to BOOLEAN, float to FLOAT, object/text
kinds to STRING, datetime to TIMESTAMP, anything else falling back to STRING),
every produced entry has mode NULLABLE, and output order matches column order. -/
theorem c8_schema_inference_total (df : Table) (j : Nat)
    (col : String × Dtype × List (Option CastValue)) (hj : df[j]? = some col) :
    (to_bq_schema df).length = df.length ∧
    (∀ fld ∈ to_bq_schema df, fld.mode = "NULLABLE") ∧
    (to_bq_schema df).map SchemaField.name = df.map (fun col2 => col2.1) ∧
    (to_bq_schema df)[j]? = some
      ⟨col.1,
        (match col.2.1 with
          | Dtype.int64 => "INTEGER"
          | Dtype.bool_ => "BOOLEAN"
          | Dtype.float64 => "FLOAT"
          | Dtype.object_ => "STRING"
          | Dtype.bytes_ => "STRING"
          | Dtype.unicode_ => "STRING"
          | Dtype.datetime64 => "TIMESTAMP"
          | _ => "STRING"),
        "NULLABLE"⟩ := by
  refine ⟨by simp [to_bq_schema], ?_, ?_, ?_⟩
  · intro fld hfld
    simp only [to_bq_schema, List.mem_map] at hfld
    obtain ⟨x, _, rfl⟩ := hfld
    rfl
  · simp only [to_bq_schema, List.map_map]
    rfl
  · rw [to_bq_schema, List.getElem?_map, hj]
    obtain ⟨na, dt, vsl⟩ := col
    cases dt <;> rfl

theorem c8_schema_inference_total_witness :
    (to_bq_schema [("x", Dtype.timedelta64, ([] : List (Option CastValue)))])[0]? =
      some ⟨"x", "STRING", "NULLABLE"⟩ :=
  (c8_schema_inference_total
    [("x", Dtype.timedelta64, ([] : List (Option CastValue)))] 0
    ("x", Dtype.timedelta64, ([] : List (Option CastValue))) rfl).2.2.2

theorem cast_mapping_round_trip (t : String)
    (f : RawCell → Except PyError CastValue) (dt : Option Dtype)
    (hmap : cast_mapping t = some (f, dt))
    (h1 : t ≠ "DATETIME") (h2 : t ≠ "DATE") (h3 : t ≠ "TIME") :
    (type_mapping (seriesDtype dt).kind).getD "STRING" =
      if t = "INTEGER" then "FLOAT" else t := by
  by_cases hS : t = "STRING"
  · subst hS
    have hd : (none : Option Dtype) = dt := congrArg Prod.snd (Option.some.inj hmap)
    subst hd
    rfl
  by_cases hDT : t = "DATETIME"
  · exact absurd hDT h1
  by_cases hD : t = "DATE"
  · exact absurd hD h2
  by_cases hT : t = "TIME"
  · exact absurd hT h3
  by_cases hF : t = "FLOAT"
  · subst hF
    have hd : (some Dtype.float64 : Option Dtype) = dt :=
      congrArg Prod.snd (Option.some.inj hmap)
    subst hd
    rfl
  by_cases hI : t = "INTEGER"
  · subst hI
    have hd : (some Dtype.float64 : Option Dtype) = dt :=
      congrArg Prod.snd (Option.some.inj hmap)
    subst hd
    rfl
  by_cases hB : t = "BOOLEAN"
  · subst hB
    have hd : (some Dtype.bool_ : Option Dtype) = dt :=
      congrArg Prod.snd (Option.some.inj hmap)
    subst hd
    rfl
  by_cases hTS : t = "TIMESTAMP"
  · subst hTS
    have hd : (some Dtype.datetime64 : Option Dtype) = dt :=
      congrArg Prod.snd (Option.some.inj hmap)
    subst hd
    rfl
  have h0 : cast_mapping t = none := by
    simp only [cast_mapping, if_neg hS, if_neg hDT, if_neg hD, if_neg hT,
      if_neg hF, if_neg hI, if_neg hB, if_neg hTS]
  rw [h0] at hmap
  cases hmap

theorem toDfColumns_round_trip (schema : List SchemaField) :
    ∀ (rows : List (List RawCell)) (tbl : Table),
      toDfColumns rows schema = .ok tbl →
      (∀ c ∈ schema, c.mode ≠ "REPEATED") →
      (∀ c ∈ schema,
        c.field_type ≠ "DATETIME" ∧ c.field_type ≠ "DATE" ∧ c.field_type ≠ "TIME") →
      (to_bq_schema tbl).map (fun fld => (fld.name, fld.field_type)) =
        schema.map (fun c =>
          (c.name, if c.field_type = "INTEGER" then "FLOAT" else c.field_type)) := by
  induction schema with
  | nil =>
    intro rows tbl h _ _
    simp only [toDfColumns] at h
    cases h
    rfl
  | cons c rest ih =>
    intro rows tbl h hmode hdate
    cases rows with
    | nil => simp only [toDfColumns] at h; cases h
    | cons rv rrest =>
      simp only [toDfColumns] at h
      cases hp : processColumn rv c with
      | error e => rw [hp] at h; cases h
      | ok cols =>
        simp only [hp] at h
        cases hrec : toDfColumns rrest rest with
        | error e => simp only [hrec] at h; cases h
        | ok tbl2 =>
          simp only [hrec, Except.ok.injEq] at h
          subst h
          have hmc := hmode c (List.mem_cons_self c rest)
          obtain ⟨f, dt, vals, hmap, hcc, rfl⟩ :=
            processColumn_nonrep_ok _ _ _ hmc hp
          have hdc := hdate c (List.mem_cons_self c rest)
          have hhead :=
            cast_mapping_round_trip c.field_type f dt hmap hdc.1 hdc.2.1 hdc.2.2
          have htail := ih rrest tbl2 hrec
            (fun d hd => hmode d (List.mem_cons_of_mem c hd))
            (fun d hd => hdate d (List.mem_cons_of_mem c hd))
          simp only [to_bq_schema, List.singleton_append, List.map_cons,
            List.map_append] at htail ⊢
          rw [hhead, htail]

/-- Claim C4: composing materialization and schema inference,
`__to_bq_schema(__to_df(rows, schema))`, reproduces the input schema`s logical
type for every column outside the text-stored date/time family (DATETIME, DATE,
TIME — the TIMESTAMP-ambiguous types, which infer back as STRING), with FLOAT and
INTEGER both mapping back to FLOAT as the expected lossy behaviour. -/
theorem c4_round_trip (rows : List (List RawCell)) (schema : List SchemaField)
    (tbl : Table)
    (h : to_df rows schema = .ok tbl) (hne : rows ≠ [])
    (hmode : ∀ c ∈ schema, c.mode ≠ "REPEATED")
    (hdate : ∀ c ∈ schema,
      c.field_type ≠ "DATETIME" ∧ c.field_type ≠ "DATE" ∧ c.field_type ≠ "TIME") :
    (to_bq_schema tbl).map (fun fld => (fld.name, fld.field_type)) =
      schema.map (fun c =>
        (c.name, if c.field_type = "INTEGER" then "FLOAT" else c.field_type)) := by
  rw [to_df_eq_columns _ _ hne] at h
  exact toDfColumns_round_trip schema rows tbl h hmode hdate

theorem c4_round_trip_witness :
    (to_bq_schema
      [("s", Dtype.object_, [some (CastValue.str "x")]),
       ("i", Dtype.float64, [some (CastValue.float 2)]),
       ("b", Dtype.bool_, [some (CastValue.bool true)]),
       ("t", Dtype.datetime64, [some (CastValue.timestamp "2020-01-01")]),
       ("f", Dtype.float64, [some (CastValue.float 7)])]).map
        (fun fld => (fld.name, fld.field_type)) =
      [("s", "STRING"), ("i", "FLOAT"), ("b", "BOOLEAN"),
       ("t", "TIMESTAMP"), ("f", "FLOAT")] := by
  have h := c4_round_trip
    [[RawCell.scalar "x"], [RawCell.scalar "2"], [RawCell.scalar "true"],
     [RawCell.scalar "2020-01-01"], [RawCell.scalar "7"]]
    [⟨"s", "STRING", "NULLABLE"⟩, ⟨"i", "INTEGER", "NULLABLE"⟩,
     ⟨"b", "BOOLEAN", "NULLABLE"⟩, ⟨"t", "TIMESTAMP", "NULLABLE"⟩,
     ⟨"f", "FLOAT", "NULLABLE"⟩]
    [("s", Dtype.object_, [some (CastValue.str "x")]),
     ("i", Dtype.float64, [some (CastValue.float 2)]),
     ("b", Dtype.bool_, [some (CastValue.bool true)]),
     ("t", Dtype.datetime64, [some (CastValue.timestamp "2020-01-01")]),
     ("f", Dtype.float64, [some (CastValue.float 7)])]
    (by rfl) (by simp) (by decide) (by decide)
  exact h

theorem pyMax_ok (l : List Nat) (hne : l ≠ []) :
    pyMax l = .ok (l.foldl Nat.max 0) := by
  cases l with
  | nil => exact absurd rfl hne
  | cons a t => rfl

/-- Claim C3: a REPEATED column whose per-row values are nested sequences expands
into exactly `max_len` physical columns named `"{name}_{i}"`, `max_len` being the
maximum nested length over all rows; physical column `i` holds the cast of the
row`s `i`-th nested element when it exists and is non-null, else a null
placeholder. -/
theorem c3_repeated_expansion (rows : List (List RawCell))
    (schema : List SchemaField) (tbl : Table) (j : Nat) (c : SchemaField)
    (rv : List RawCell)
    (h : to_df rows schema = .ok tbl)
    (hc : schema[j]? = some c) (hrv : rows[j]? = some rv)
    (hm : c.mode = "REPEATED")
    (hseq : ∀ cell ∈ rv, ∃ xs : List (Option String), cell = RawCell.arr xs) :
    ∃ pre block post, tbl = pre ++ block ++ post ∧
      block.length =
        (rv.map fun cell =>
          match cell with
          | RawCell.arr xs => xs.length
          | RawCell.scalar s => s.length
          | RawCell.null => 0).foldl Nat.max 0 ∧
      (∀ (r : Nat) (xs : List (Option String)),
        rv[r]? = some (RawCell.arr xs) → xs.length ≤ block.length) ∧
      (block.length = 0 ∨ ∃ (r : Nat) (xs : List (Option String)),
        rv[r]? = some (RawCell.arr xs) ∧ xs.length = block.length) ∧
      (∀ i : Nat, i < block.length →
        ∃ f dt vals, cast_mapping c.field_type = some (f, dt) ∧
          block[i]? = some (c.name ++ "_" ++ toString i, seriesDtype dt, vals) ∧
          vals.length = rv.length ∧
          ∀ (r : Nat) (xs : List (Option String)),
            rv[r]? = some (RawCell.arr xs) →
            ((xs.length ≤ i → vals[r]? = some none) ∧
              ∀ hlt : i < xs.length,
                (xs[i] = none → vals[r]? = some none) ∧
                (∀ elem, xs[i] = some elem →
                  ∃ cv, f (RawCell.scalar elem) = .ok cv ∧
                    vals[r]? = some (some cv)))) := by
  cases rows with
  | nil => simp at hrv
  | cons rv0 rrest =>
    rw [to_df_eq_columns _ _ (by simp)] at h
    obtain ⟨pre, block, post, rfl, hpc⟩ :=
      toDfColumns_locate _ _ _ h j rv c hrv hc
    obtain ⟨lens, M, hlens, hmax, hemit⟩ := processColumn_rep_ok _ _ _ hm hpc
    have hlens2 := pyLenList_arr rv hseq
    have hlenseq : lens = rv.map fun cell =>
        match cell with
        | RawCell.arr xs => xs.length
        | RawCell.scalar s => s.length
        | RawCell.null => 0 :=
      Except.ok.inj (hlens.symm.trans hlens2)
    have hlne : lens ≠ [] := by
      intro h0
      rw [h0] at hmax
      cases hmax
    have hMeq : M = lens.foldl Nat.max 0 :=
      Except.ok.inj ((pyMax_ok lens hlne).symm.trans hmax).symm
    obtain ⟨hblen, hspec⟩ := emitRepeat_ok _ _ _ _ _ hemit
    rw [List.length_range] at hblen
    have hlget : ∀ (r : Nat) (xs : List (Option String)),
        rv[r]? = some (RawCell.arr xs) → lens[r]? = some xs.length := by
      intro r xs hr
      rw [hlenseq, List.getElem?_map, hr]
      rfl
    refine ⟨pre, block, post, rfl, ?_, ?_, ?_, ?_⟩
    · rw [hblen, hMeq, hlenseq]
    · intro r xs hr
      rw [hblen, hMeq]
      exact mem_le_foldl_max lens 0 xs.length
        (List.mem_iff_getElem?.mpr ⟨r, hlget r xs hr⟩)
    · rw [hblen, hMeq]
      rcases foldl_max_cases lens 0 with h0 | hmem
      · exact Or.inl h0
      · right
        obtain ⟨r, hr⟩ := List.mem_iff_getElem?.mp hmem
        have hr2 : (rv.map fun cell =>
            match cell with
            | RawCell.arr xs => xs.length
            | RawCell.scalar s => s.length
            | RawCell.null => 0)[r]? = some (lens.foldl Nat.max 0) := by
          rw [← hlenseq]
          exact hr
        rw [List.getElem?_map] at hr2
        cases hcell : rv[r]? with
        | none => rw [hcell] at hr2; cases hr2
        | some cell =>
          rw [hcell] at hr2
          obtain ⟨xs, rfl⟩ := hseq cell
            (List.mem_iff_getElem?.mpr ⟨r, hcell⟩)
          refine ⟨r, xs, hcell, ?_⟩
          exact Option.some.inj hr2
    · intro i hi
      rw [hblen] at hi
      obtain ⟨f, dt, vals, hmap, hcc, hbi⟩ :=
        hspec i i (List.getElem?_range hi)
      refine ⟨f, dt, vals, hmap, hbi,
        castColumnRepeated_length _ _ _ _ hcc, ?_⟩
      intro r xs hr
      obtain ⟨hge, hlt⟩ := castColumnRepeated_arr_at _ _ _ _ hcc r xs hr
      exact ⟨hge, hlt⟩

theorem c3_repeated_expansion_witness :
    ∃ pre block post,
      ([("c_0", Dtype.object_, [some (CastValue.str "x"), none, some (CastValue.str "p")]),
        ("c_1", Dtype.object_, [some (CastValue.str "y"), none, some (CastValue.str "q")]),
        ("c_2", Dtype.object_, [none, none, some (CastValue.str "r")]),
        ("c_3", Dtype.object_, [none, none, some (CastValue.str "s")]),
        ("c_4", Dtype.object_, [none, none, some (CastValue.str "t")])] : Table) =
        pre ++ block ++ post ∧
      block.length = 5 ∧
      (block.length = 0 ∨ ∃ (r : Nat) (xs : List (Option String)),
        [RawCell.arr [some "x", some "y"], RawCell.arr [],
          RawCell.arr [some "p", some "q", some "r", some "s", some "t"]][r]? =
          some (RawCell.arr xs) ∧ xs.length = block.length) := by
  obtain ⟨pre, block, post, heq, hlen, _, hattain, _⟩ :=
    c3_repeated_expansion
      [[RawCell.arr [some "x", some "y"], RawCell.arr [],
        RawCell.arr [some "p", some "q", some "r", some "s", some "t"]]]
      [⟨"c", "STRING", "REPEATED"⟩]
      [("c_0", Dtype.object_, [some (CastValue.str "x"), none, some (CastValue.str "p")]),
       ("c_1", Dtype.object_, [some (CastValue.str "y"), none, some (CastValue.str "q")]),
       ("c_2", Dtype.object_, [none, none, some (CastValue.str "r")]),
       ("c_3", Dtype.object_, [none, none, some (CastValue.str "s")]),
       ("c_4", Dtype.object_, [none, none, some (CastValue.str "t")])]
      0 ⟨"c", "STRING", "REPEATED"⟩
      [RawCell.arr [some "x", some "y"], RawCell.arr [],
       RawCell.arr [some "p", some "q", some "r", some "s", some "t"]]
      (by rfl) rfl rfl rfl
      (by intro cell hcell; fin_cases hcell <;> exact ⟨_, rfl⟩)
  exact ⟨pre, block, post, heq, hlen.trans (by rfl), hattain⟩

theorem cast_mapping_none_of_unsupported (t : String) (ht : t ∉ supportedTypes) :
    cast_mapping t = none := by
  simp only [supportedTypes, List.mem_cons, List.mem_singleton, not_or] at ht
  obtain ⟨h1, h2, h3, h4, h5, h6, h7, h8, -⟩ := ht
  simp only [cast_mapping, if_neg h1, if_neg h2, if_neg h3, if_neg h4,
    if_neg h5, if_neg h6, if_neg h7, if_neg h8]

theorem processColumn_unsupported (rv : List RawCell) (c : SchemaField)
    (ht : cast_mapping c.field_type = none)
    (hmode : c.mode ≠ "REPEATED" ∨
      ∃ lens, pyLenList rv = .ok lens ∧ 0 < lens.foldl Nat.max 0) :
    processColumn rv c = .error (.unsupportedType c.field_type) := by
  by_cases hm : c.mode = "REPEATED"
  · rcases hmode with hmode | ⟨lens, hlens, hpos⟩
    · exact absurd hm hmode
    · have hlne : lens ≠ [] := by
        intro h0
        rw [h0] at hpos
        simp at hpos
      simp only [processColumn, if_pos hm, hlens, pyMax_ok lens hlne]
      obtain ⟨m, hm2⟩ := Nat.exists_eq_succ_of_ne_zero (Nat.pos_iff_ne_zero.mp hpos)
      rw [hm2, List.range_succ_eq_map]
      simp only [emitRepeat, cast_all_column, ht]
  · simp only [processColumn, if_neg hm, cast_all_column, ht]

theorem toDfColumns_error_at (schema : List SchemaField) :
    ∀ (rows : List (List RawCell)) (j : Nat) (c : SchemaField)
      (rv : List RawCell) (e : PyError),
      schema[j]? = some c → rows[j]? = some rv →
      processColumn rv c = .error e →
      (∀ k : Nat, k < j → ∀ (rvk : List RawCell) (ck : SchemaField),
        rows[k]? = some rvk → schema[k]? = some ck →
        ∃ cols, processColumn rvk ck = .ok cols) →
      toDfColumns rows schema = .error e := by
  induction schema with
  | nil => intro rows j c rv e hc; simp at hc
  | cons c0 rest ih =>
    intro rows j c rv e hc hrv hpc hpre
    cases rows with
    | nil => cases j <;> simp at hrv
    | cons rv0 rrest =>
      cases j with
      | zero =>
        simp only [List.getElem?_cons_zero, Option.some.injEq] at hc hrv
        subst hc
        subst hrv
        simp only [toDfColumns, hpc]
      | succ m =>
        obtain ⟨cols0, hcols0⟩ :=
          hpre 0 (Nat.succ_pos m) rv0 c0 (by simp) (by simp)
        have hrec := ih rrest m c rv e (by simpa using hc) (by simpa using hrv)
          hpc
          (fun k hk rvk ck hrk hck =>
            hpre (k + 1) (by omega) rvk ck (by simpa using hrk)
              (by simpa using hck))
        simp only [toDfColumns, hcols0, hrec]

theorem c5_counterexample :
    "GEOGRAPHY" ∉ supportedTypes ∧
    (⟨"g", "GEOGRAPHY", "REPEATED"⟩ : SchemaField).field_type = "GEOGRAPHY" ∧
    to_df [[RawCell.arr []]] [⟨"g", "GEOGRAPHY", "REPEATED"⟩] = .ok ([] : Table) :=
  ⟨by decide, rfl, by rfl⟩

/-- Claim C5 (amended): a schema column whose logical-type string is not one of the
eight supported types makes `__to_df` fail with the unsupported-type error naming
the offending string — provided the column is reached (the page is nonempty and
every earlier column processes without error) and the column is not skipped by the
REPEATED branch (a REPEATED column whose rows all have empty nested sequences
never reaches the type lookup); the column is never silently defaulted to
STRING. -/
theorem c5_unsupported_type_error (rows : List (List RawCell))
    (schema : List SchemaField) (j : Nat) (c : SchemaField) (rv : List RawCell)
    (hc : schema[j]? = some c) (hrv : rows[j]? = some rv)
    (ht : c.field_type ∉ supportedTypes)
    (hmode : c.mode ≠ "REPEATED" ∨
      ∃ lens, pyLenList rv = .ok lens ∧ 0 < lens.foldl Nat.max 0)
    (hpre : ∀ k : Nat, k < j → ∀ (rvk : List RawCell) (ck : SchemaField),
      rows[k]? = some rvk → schema[k]? = some ck →
      ∃ cols, processColumn rvk ck = .ok cols) :
    to_df rows schema = .error (.unsupportedType c.field_type) ∧
    pyErrorMessage (.unsupportedType c.field_type) =
      "Not Support to type:" ++ c.field_type ++ "." := by
  cases rows with
  | nil => simp at hrv
  | cons rv0 rrest =>
    rw [to_df_eq_columns _ _ (by simp)]
    exact ⟨toDfColumns_error_at _ _ j c rv _ hc hrv
      (processColumn_unsupported rv c
        (cast_mapping_none_of_unsupported _ ht) hmode) hpre, rfl⟩

theorem c5_unsupported_type_error_witness :
    to_df [[RawCell.scalar "POINT(1 2)"]] [⟨"g", "GEOGRAPHY", "NULLABLE"⟩] =
      .error (.unsupportedType "GEOGRAPHY") ∧
    pyErrorMessage (.unsupportedType "GEOGRAPHY") =
      "Not Support to type:GEOGRAPHY." := by
  have h := c5_unsupported_type_error [[RawCell.scalar "POINT(1 2)"]]
    [⟨"g", "GEOGRAPHY", "NULLABLE"⟩] 0 ⟨"g", "GEOGRAPHY", "NULLABLE"⟩
    [RawCell.scalar "POINT(1 2)"] rfl rfl (by decide)
    (Or.inl (by decide))
    (fun k hk => absurd hk (Nat.not_lt_zero k))
  exact h

theorem toDfColumns_error_of_short (schema : List SchemaField) :
    ∀ rows : List (List RawCell), rows.length < schema.length →
      ∃ e, toDfColumns rows schema = .error e := by
  induction schema with
  | nil => intro rows h; simp at h
  | cons c rest ih =>
    intro rows h
    cases rows with
    | nil => exact ⟨.indexError, rfl⟩
    | cons rv rrest =>
      cases hp : processColumn rv c with
      | error e => exact ⟨e, by simp only [toDfColumns, hp]⟩
      | ok cols =>
        obtain ⟨e, he⟩ := ih rrest (by simpa using h)
        exact ⟨e, by simp only [toDfColumns, hp, he]⟩

theorem pyLenList_null_mem (rv : List RawCell) (h : RawCell.null ∈ rv) :
    pyLenList rv = .error (.typeError "object of type NoneType has no len()") := by
  induction rv with
  | nil => simp at h
  | cons c cs ih =>
    rcases List.mem_cons.mp h with rfl | hmem
    · rfl
    · cases c with
      | null => rfl
      | scalar s => simp only [pyLenList, pyLen, ih hmem]
      | arr xs => simp only [pyLenList, pyLen, ih hmem]

theorem c9_counterexample :
    ([[RawCell.scalar "x"], [RawCell.scalar "y"]] :
        List (List RawCell)).length ≠
      ([⟨"a", "STRING", "NULLABLE"⟩] : List SchemaField).length ∧
    to_df [[RawCell.scalar "x"], [RawCell.scalar "y"]]
        [⟨"a", "STRING", "NULLABLE"⟩] =
      .ok [("a", Dtype.object_, [some (CastValue.str "x")])] ∧
    to_df [[RawCell.scalar "abc"]] [⟨"f", "FLOAT", "NULLABLE"⟩] =
      .error (.valueError "could not convert string to float: abc") :=
  ⟨by decide, by rfl, by rfl⟩

/-- Claim C9 (amended): `__to_df` fails when the raw row page has fewer outer
entries than the schema has columns (an index error once the page is exhausted;
extra outer entries beyond the schema are silently ignored, not an error); a
REPEATED column whose per-row value is `None` — not a sequence — fails with the
`len()` type error; and, besides the unsupported-type error, the casting
functions contribute further failure modes, e.g. the FLOAT cast of a non-numeric
string fails with a value error. -/
theorem c9_failure_modes :
    (∀ (rows : List (List RawCell)) (schema : List SchemaField),
      rows ≠ [] → rows.length < schema.length →
      ∃ e, to_df rows schema = .error e) ∧
    (∀ (name ty : String) (rest : List SchemaField) (rv : List RawCell)
        (rrest : List (List RawCell)), RawCell.null ∈ rv →
      to_df (rv :: rrest) (⟨name, ty, "REPEATED"⟩ :: rest) =
        .error (.typeError "object of type NoneType has no len()")) ∧
    (∀ (name s : String) (rest : List SchemaField) (tail : List RawCell)
        (rrest : List (List RawCell)), parsePyFloat s = none →
      to_df ((RawCell.scalar s :: tail) :: rrest)
          (⟨name, "FLOAT", "NULLABLE"⟩ :: rest) =
        .error (.valueError ("could not convert string to float: " ++ s))) := by
  refine ⟨?_, ?_, ?_⟩
  · intro rows schema hne hlt
    rw [to_df_eq_columns _ _ hne]
    exact toDfColumns_error_of_short schema rows hlt
  · intro name ty rest rv rrest hmem
    rw [to_df_eq_columns _ _ (by simp)]
    simp only [toDfColumns, processColumn, if_pos rfl, pyLenList_null_mem rv hmem]
    rfl
  · intro name s rest tail rrest hparse
    rw [to_df_eq_columns _ _ (by simp)]
    have hcast : castColumnSimple (RawCell.scalar s :: tail) floatCast =
        .error (.valueError ("could not convert string to float: " ++ s)) := by
      simp only [castColumnSimple, floatCast, hparse]
    simp only [toDfColumns, processColumn, cast_all_column]
    rw [if_neg (by decide : ¬("NULLABLE" = "REPEATED"))]
    have hmapF : cast_mapping "FLOAT" = some (floatCast, some Dtype.float64) := rfl
    rw [hmapF]
    simp only [cast_column, hcast]

theorem c9_failure_modes_witness :
    (∃ e, to_df [[RawCell.scalar "x"]]
      [⟨"a", "STRING", "NULLABLE"⟩, ⟨"b", "STRING", "NULLABLE"⟩] = .error e) ∧
    to_df [[RawCell.arr [some "z"], RawCell.null]]
        [⟨"r", "STRING", "REPEATED"⟩] =
      .error (.typeError "object of type NoneType has no len()") ∧
    to_df [[RawCell.scalar "abc"]] [⟨"f", "FLOAT", "NULLABLE"⟩] =
      .error (.valueError "could not convert string to float: abc") := by
  obtain ⟨ha, hb, hc⟩ := c9_failure_modes
  refine ⟨ha [[RawCell.scalar "x"]]
    [⟨"a", "STRING", "NULLABLE"⟩, ⟨"b", "STRING", "NULLABLE"⟩]
    (by simp) (by decide), ?_, ?_⟩
  · exact hb "r" "STRING" [] [RawCell.arr [some "z"], RawCell.null] []
      (by decide)
  · exact hc "f" "abc" [] [] [] (by rfl)

theorem dictLookup_dictInsert_self (d : List (String × PyVal)) (k : String)
    (v : PyVal) : dictLookup (dictInsert d k v) k = some v := by
  induction d with
  | nil => simp [dictInsert, dictLookup]
  | cons p rest ih =>
    obtain ⟨k0, v0⟩ := p
    by_cases h : k0 = k
    · subst h
      simp [dictInsert, dictLookup]
    · simp only [dictInsert, if_neg h, dictLookup]
      exact ih

theorem dictLookup_dictInsert_ne (d : List (String × PyVal)) (k k2 : String)
    (v : PyVal) (h : k ≠ k2) :
    dictLookup (dictInsert d k2 v) k = dictLookup d k := by
  induction d with
  | nil =>
    simp only [dictInsert, dictLookup]
    rw [if_neg (fun h2 => h h2.symm)]
  | cons p rest ih =>
    obtain ⟨k0, v0⟩ := p
    by_cases h0 : k0 = k2
    · subst h0
      simp only [dictInsert, if_pos rfl, dictLookup]
      rw [if_neg (fun h2 => h h2.symm), if_neg (fun h2 => h h2.symm)]
    · simp only [dictInsert, if_neg h0, dictLookup]
      by_cases hk : k0 = k
      · rw [if_pos hk, if_pos hk]
      · rw [if_neg hk, if_neg hk]
        exact ih

theorem dictLookup_eq_none_of_not_mem_keys (d : List (String × PyVal))
    (k : String) (h : k ∉ d.map Prod.fst) : dictLookup d k = none := by
  induction d with
  | nil => rfl
  | cons p rest ih =>
    obtain ⟨k0, v0⟩ := p
    simp only [List.map_cons, List.mem_cons, not_or] at h
    simp only [dictLookup]
    rw [if_neg (fun h2 => h.1 h2.symm)]
    exact ih h.2

theorem mem_keys_dictInsert (d : List (String × PyVal)) (k a : String)
    (v : PyVal) :
    a ∈ (dictInsert d k v).map Prod.fst → a ∈ d.map Prod.fst ∨ a = k := by
  induction d with
  | nil =>
    intro h
    cases h with
    | head => exact Or.inr rfl
    | tail _ h1 => cases h1
  | cons p rest ih =>
    obtain ⟨k0, v0⟩ := p
    intro h
    by_cases h0 : k0 = k
    · subst h0
      simp only [dictInsert, if_pos rfl] at h
      cases h with
      | head => exact Or.inr rfl
      | tail _ h1 => exact Or.inl (List.mem_cons_of_mem _ h1)
    · simp only [dictInsert, if_neg h0] at h
      cases h with
      | head => exact Or.inl (List.mem_cons_self _ _)
      | tail _ h1 =>
        rcases ih h1 with h2 | h2
        · exact Or.inl (List.mem_cons_of_mem _ h2)
        · exact Or.inr h2

theorem mem_keys_stepRowInfo (convertTs : PyVal → PyVal) (f : SchemaField)
    (v : PyVal) (acc : List (String × PyVal)) (a : String)
    (h : a ∈ (stepRowInfo convertTs f v acc).map Prod.fst) :
    a ∈ acc.map Prod.fst ∨ a = f.name := by
  by_cases hTS : f.field_type = "TIMESTAMP" <;>
    [simp only [stepRowInfo, if_pos hTS] at h;
     simp only [stepRowInfo, if_neg hTS] at h] <;>
    split at h <;>
    first
      | exact mem_keys_dictInsert _ _ _ _ h
      | exact Or.inl h

theorem dictLookup_stepRowInfo_ne (convertTs : PyVal → PyVal) (f : SchemaField)
    (v : PyVal) (acc : List (String × PyVal)) (k : String) (h : k ≠ f.name) :
    dictLookup (stepRowInfo convertTs f v acc) k = dictLookup acc k := by
  by_cases hTS : f.field_type = "TIMESTAMP" <;>
    [simp only [stepRowInfo, if_pos hTS];
     simp only [stepRowInfo, if_neg hTS]] <;>
    split <;>
    first
      | exact dictLookup_dictInsert_ne _ _ _ _ h
      | rfl

theorem dictLookup_stepRowInfo_self (convertTs : PyVal → PyVal)
    (f : SchemaField) (v : PyVal) (acc : List (String × PyVal))
    (hacc : f.name ∉ acc.map Prod.fst) :
    dictLookup (stepRowInfo convertTs f v acc) f.name =
      (if (if f.field_type = "TIMESTAMP" then convertTs v else v) ≠ PyVal.none ∧
          pyEq (if f.field_type = "TIMESTAMP" then convertTs v else v)
            (if f.field_type = "TIMESTAMP" then convertTs v else v) then
        some (if f.field_type = "TIMESTAMP" then convertTs v else v)
      else none) := by
  by_cases hTS : f.field_type = "TIMESTAMP"
  · simp only [stepRowInfo, if_pos hTS]
    by_cases hcond :
        convertTs v ≠ PyVal.none ∧ pyEq (convertTs v) (convertTs v) = true
    · rw [if_pos hcond, if_pos hcond]
      exact dictLookup_dictInsert_self _ _ _
    · rw [if_neg hcond, if_neg hcond]
      exact dictLookup_eq_none_of_not_mem_keys _ _ hacc
  · simp only [stepRowInfo, if_neg hTS]
    by_cases hcond : v ≠ PyVal.none ∧ pyEq v v = true
    · rw [if_pos hcond, if_pos hcond]
      exact dictLookup_dictInsert_self _ _ _
    · rw [if_neg hcond, if_neg hcond]
      exact dictLookup_eq_none_of_not_mem_keys _ _ hacc

theorem dictLookup_buildRowInfo_frame (convertTs : PyVal → PyVal)
    (fs : List SchemaField) :
    ∀ (vs : List PyVal) (acc : List (String × PyVal)) (k : String),
      k ∉ fs.map SchemaField.name →
      dictLookup (buildRowInfo convertTs fs vs acc) k = dictLookup acc k := by
  induction fs with
  | nil => intro vs acc k _; cases vs <;> rfl
  | cons f fs2 ih =>
    intro vs acc k hk
    simp only [List.map_cons, List.mem_cons, not_or] at hk
    cases vs with
    | nil => rfl
    | cons v vs2 =>
      simp only [buildRowInfo]
      rw [ih vs2 _ k hk.2]
      exact dictLookup_stepRowInfo_ne _ _ _ _ _ hk.1

theorem dictLookup_buildRowInfo_at (convertTs : PyVal → PyVal)
    (fs : List SchemaField) :
    ∀ (vs : List PyVal) (acc : List (String × PyVal)) (j : Nat)
      (c : SchemaField) (v : PyVal),
      fs[j]? = some c → vs[j]? = some v →
      (fs.map SchemaField.name).Nodup →
      c.name ∉ acc.map Prod.fst →
      dictLookup (buildRowInfo convertTs fs vs acc) c.name =
        (if (if c.field_type = "TIMESTAMP" then convertTs v else v) ≠ PyVal.none ∧
            pyEq (if c.field_type = "TIMESTAMP" then convertTs v else v)
              (if c.field_type = "TIMESTAMP" then convertTs v else v) then
          some (if c.field_type = "TIMESTAMP" then convertTs v else v)
        else none) := by
  induction fs with
  | nil => intro vs acc j c v hc; simp at hc
  | cons f fs2 ih =>
    intro vs acc j c v hc hv hnodup hacc
    cases vs with
    | nil => simp at hv
    | cons v0 vs2 =>
      cases j with
      | zero =>
        simp only [List.getElem?_cons_zero, Option.some.injEq] at hc hv
        subst hc
        subst hv
        have hnotin : f.name ∉ fs2.map SchemaField.name := by
          simp only [List.map_cons, List.nodup_cons] at hnodup
          exact hnodup.1
        simp only [buildRowInfo]
        rw [dictLookup_buildRowInfo_frame convertTs fs2 vs2 _ _ hnotin]
        exact dictLookup_stepRowInfo_self convertTs f v0 _ hacc
      | succ m =>
        simp only [List.getElem?_cons_succ] at hc hv
        simp only [List.map_cons, List.nodup_cons] at hnodup
        have hcname : c.name ∈ fs2.map SchemaField.name := by
          have hcmem : c ∈ fs2 := List.mem_iff_getElem?.mpr ⟨m, hc⟩
          exact List.mem_map.mpr ⟨c, hcmem, rfl⟩
        have hne : c.name ≠ f.name := fun h0 => hnodup.1 (h0 ▸ hcname)
        simp only [buildRowInfo]
        refine ih vs2 _ m c v hc hv hnodup.2 ?_
        intro hmem
        rcases mem_keys_stepRowInfo _ _ _ _ _ hmem with h2 | h2
        · exact hacc h2
        · exact hne h2

/-- Claim C10: in `BQLiteTable.insert_data`, a cell whose value is `None` or NaN
(a value not equal to itself) is omitted from that row`s JSON payload entry, while
every other cell is stored under its schema field name; a TIMESTAMP cell is first
converted by the external `_convert_timestamp` helper (any conversion `convertTs`)
before this null check. -/
theorem c10_insert_null_omission (convertTs : PyVal → PyVal)
    (schema : List SchemaField) (rows : List (List PyVal)) (i : Nat)
    (row : List PyVal) (j : Nat) (c : SchemaField) (v : PyVal)
    (hrow : rows[i]? = some row)
    (hnodup : (schema.map SchemaField.name).Nodup)
    (hc : schema[j]? = some c) (hv : row[j]? = some v) :
    ∃ payload, (insert_data convertTs schema rows)[i]? = some payload ∧
      dictLookup payload c.name =
        (if (if c.field_type = "TIMESTAMP" then convertTs v else v) ≠ PyVal.none ∧
            pyEq (if c.field_type = "TIMESTAMP" then convertTs v else v)
              (if c.field_type = "TIMESTAMP" then convertTs v else v) then
          some (if c.field_type = "TIMESTAMP" then convertTs v else v)
        else none) := by
  refine ⟨row_json convertTs schema row, ?_, ?_⟩
  · rw [insert_data, List.getElem?_map, hrow]
    rfl
  · exact dictLookup_buildRowInfo_at convertTs schema row [] j c v hc hv hnodup
      (by simp)

theorem c10_insert_null_omission_witness :
    (∃ payload,
      (insert_data (fun _ => PyVal.nan) [⟨"t", "TIMESTAMP", "NULLABLE"⟩]
        [[PyVal.num 5]])[0]? = some payload ∧
      dictLookup payload "t" = none) ∧
    (∃ payload,
      (insert_data (fun w => w) [⟨"a", "FLOAT", "NULLABLE"⟩]
        [[PyVal.num 7]])[0]? = some payload ∧
      dictLookup payload "a" = some (PyVal.num 7)) := by
  constructor
  · obtain ⟨payload, hp, hl⟩ :=
      c10_insert_null_omission (fun _ => PyVal.nan)
        [⟨"t", "TIMESTAMP", "NULLABLE"⟩] [[PyVal.num 5]] 0 [PyVal.num 5] 0
        ⟨"t", "TIMESTAMP", "NULLABLE"⟩ (PyVal.num 5) rfl (by simp) rfl rfl
    exact ⟨payload, hp, by rw [hl]; rfl⟩
  · obtain ⟨payload, hp, hl⟩ :=
      c10_insert_null_omission (fun w => w)
        [⟨"a", "FLOAT", "NULLABLE"⟩] [[PyVal.num 7]] 0 [PyVal.num 7] 0
        ⟨"a", "FLOAT", "NULLABLE"⟩ (PyVal.num 7) rfl (by simp) rfl rfl
    exact ⟨payload, hp, by rw [hl]; rfl⟩
